import Mathlib

/-!
Verification of the DNS forwarding server (Go sources under `app/`).

Shallow embedding conventions:
* a byte is a `Nat` (well-formed buffers carry values `< 256`);
* a Go `uint16` field is a `Nat` (the bit operations below are exact for
  values `< 2 ^ 16`, which is what the Go type guarantees);
* a `*bytes.Reader` over the datagram is modelled as the full byte list
  plus an explicit read position;
* fallible Go functions return `Option`/`Except`/a three-valued result;
* the recursive `ReadQName` is modelled with explicit fuel: `diverge`
  means the recursion exceeded every bound (the Go code does not
  terminate on such inputs), `err` is a returned decode error.
-/

/-- Errors produced by the header/question field validators
(`validation.go`).  The Go code uses `fmt.Errorf` strings; here each
error keeps its field name and offending value. -/
inductive DNSError where
  | invalidQR (v : Nat)
  | invalidOpCode (v : Nat)
  | invalidAA (v : Nat)
  | invalidTC (v : Nat)
  | invalidRD (v : Nat)
  | invalidRA (v : Nat)
  | invalidZ (v : Nat)
  | invalidRCode (v : Nat)
deriving DecidableEq, Repr

/-- The 12-byte DNS header (`types.go`): six `uint16` fields. -/
structure DNSHeader where
  ID : Nat
  Flags : Nat
  QDCount : Nat
  ANCount : Nat
  NSCount : Nat
  ARCount : Nat
deriving DecidableEq, Repr

/-- One length-prefixed name label (`types.go`). -/
structure DNSLabel where
  Length : Nat
  Content : List Nat
deriving DecidableEq, Repr

/-- A DNS question (`types.go`).  The Go fields `Type` and `Class` are
named `QType`/`QClass` here because `Type` is a Lean keyword. -/
structure DNSQuestion where
  Name : List DNSLabel
  QType : Nat
  QClass : Nat
deriving DecidableEq, Repr

/-- A resource record (`types.go`); Go fields `Type`, `Class`, `Length`
are `RType`, `RClass`, `RLength` here. -/
structure ResourceRecord where
  Name : List DNSLabel
  RType : Nat
  RClass : Nat
  TTL : Nat
  RLength : Nat
  Data : List Nat
deriving DecidableEq, Repr

/-- The answer section: a list of resource records (`types.go`). -/
structure DNSAnswer where
  ResourceRecords : List ResourceRecord
deriving DecidableEq, Repr

/-- A full DNS message (`types.go`). -/
structure DNSMessage where
  Header : DNSHeader
  Questions : List DNSQuestion
  Answers : List DNSAnswer
deriving DecidableEq, Repr

/-! Bit-layout constants from `constants.go`. -/

def QRMax : Nat := 1
def OpCodeMax : Nat := 15
def AAMax : Nat := 1
def TCMax : Nat := 1
def RDMax : Nat := 1
def RAMax : Nat := 1
def ZMax : Nat := 7
def RCodeMax : Nat := 15
def QRShift : Nat := 15
def OpCodeShift : Nat := 11
def AAShift : Nat := 10
def TCShift : Nat := 9
def RDShift : Nat := 8
def RAShift : Nat := 7
def ZShift : Nat := 4
def RCodeShift : Nat := 0
def QRMask : Nat := 1 <<< QRShift
def OpCodeMask : Nat := 15 <<< OpCodeShift
def AAMask : Nat := 1 <<< AAShift
def TCMask : Nat := 1 <<< TCShift
def RDMask : Nat := 1 <<< RDShift
def RAMask : Nat := 1 <<< RAShift
def ZMask : Nat := 7 <<< ZShift
def RCodeMask : Nat := 15 <<< RCodeShift

/-- Go's `x &^ mask` (AND NOT) on `uint16` operands: all masks are below
`2 ^ 16`, so the complement is taken inside 16 bits. -/
def andNot16 (x mask : Nat) : Nat := x &&& (65535 ^^^ mask)

/-! Field validators from `validation.go`. -/

def validateQR (qr : Nat) : Option DNSError :=
  if qr > QRMax then some (.invalidQR qr) else none

def validateOpCode (opCode : Nat) : Option DNSError :=
  if opCode > OpCodeMax then some (.invalidOpCode opCode) else none

def validateAA (aa : Nat) : Option DNSError :=
  if aa > AAMax then some (.invalidAA aa) else none

def validateTC (tc : Nat) : Option DNSError :=
  if tc > TCMax then some (.invalidTC tc) else none

def validateRD (rd : Nat) : Option DNSError :=
  if rd > RDMax then some (.invalidRD rd) else none

def validateRA (ra : Nat) : Option DNSError :=
  if ra > RAMax then some (.invalidRA ra) else none

def validateZ (z : Nat) : Option DNSError :=
  if z > ZMax then some (.invalidZ z) else none

def validateRCode (rCode : Nat) : Option DNSError :=
  if rCode > RCodeMax then some (.invalidRCode rCode) else none

/-- A header field-mutator (`types.go`: `DNSHeaderModification`).  The Go
version mutates a header in place and returns an error; the pure version
returns the updated header or the error. -/
abbrev DNSHeaderModification := DNSHeader → Except DNSError DNSHeader

/-- A question field-mutator (`types.go`: `DNSQuestionModification`). -/
abbrev DNSQuestionModification := DNSQuestion → Except DNSError DNSQuestion

/-! The field mutators of `dns_message.go`. -/

def ModifyQR (qr : Nat) : DNSHeaderModification := fun header =>
  match validateQR qr with
  | some e => .error e
  | none => .ok { header with Flags := andNot16 header.Flags QRMask ||| (qr <<< QRShift) }

def ModifyOpCode (opCode : Nat) : DNSHeaderModification := fun header =>
  match validateOpCode opCode with
  | some e => .error e
  | none => .ok { header with Flags := andNot16 header.Flags OpCodeMask ||| (opCode <<< OpCodeShift) }

def ModifyAA (aa : Nat) : DNSHeaderModification := fun header =>
  match validateAA aa with
  | some e => .error e
  | none => .ok { header with Flags := andNot16 header.Flags AAMask ||| (aa <<< AAShift) }

def ModifyTC (tc : Nat) : DNSHeaderModification := fun header =>
  match validateTC tc with
  | some e => .error e
  | none => .ok { header with Flags := andNot16 header.Flags TCMask ||| (tc <<< TCShift) }

def ModifyRD (rd : Nat) : DNSHeaderModification := fun header =>
  match validateRD rd with
  | some e => .error e
  | none => .ok { header with Flags := andNot16 header.Flags RDMask ||| (rd <<< RDShift) }

def ModifyRA (ra : Nat) : DNSHeaderModification := fun header =>
  match validateRA ra with
  | some e => .error e
  | none => .ok { header with Flags := andNot16 header.Flags RAMask ||| (ra <<< RAShift) }

def ModifyZ (z : Nat) : DNSHeaderModification := fun header =>
  match validateZ z with
  | some e => .error e
  | none => .ok { header with Flags := andNot16 header.Flags ZMask ||| (z <<< ZShift) }

def ModifyRCode (rCode : Nat) : DNSHeaderModification := fun header =>
  match validateRCode rCode with
  | some e => .error e
  | none => .ok { header with Flags := andNot16 header.Flags RCodeMask ||| (rCode <<< RCodeShift) }

def ModifyQDCount (qdCount : Nat) : DNSHeaderModification := fun header =>
  .ok { header with QDCount := qdCount }

def ModifyANCount (anCount : Nat) : DNSHeaderModification := fun header =>
  .ok { header with ANCount := anCount }

def ModifyNSCount (nsCount : Nat) : DNSHeaderModification := fun header =>
  .ok { header with NSCount := nsCount }

def ModifyARCount (arCount : Nat) : DNSHeaderModification := fun header =>
  .ok { header with ARCount := arCount }

def ModifyQType (qType : Nat) : DNSQuestionModification := fun question =>
  .ok { question with QType := qType }

def ModifyClass (qClass : Nat) : DNSQuestionModification := fun question =>
  .ok { question with QClass := qClass }

/-- The loop body of `(*DNSHeader).ModifyDNSHeader` (`dns_message.go`):
`original` is the receiver, `newHeader` the private working copy; the
first failing mutator makes the function return the untouched receiver
together with the error. -/
def modifyDNSHeaderLoop (original newHeader : DNSHeader) :
    List DNSHeaderModification → DNSHeader × Option DNSError
  | [] => (newHeader, none)
  | m :: ms =>
    match m newHeader with
    | .error e => (original, some e)
    | .ok h2 => modifyDNSHeaderLoop original h2 ms

/-- `(*DNSHeader).ModifyDNSHeader` (`dns_message.go`): applies the
mutators to a copy of the header. -/
def ModifyDNSHeader (header : DNSHeader) (mods : List DNSHeaderModification) :
    DNSHeader × Option DNSError :=
  modifyDNSHeaderLoop header header mods

/-- Sequential application of mutators (the compositional semantics the
loop above is proved to implement). -/
def applyMods (header : DNSHeader) : List DNSHeaderModification → Except DNSError DNSHeader
  | [] => .ok header
  | m :: ms =>
    match m header with
    | .error e => .error e
    | .ok h2 => applyMods h2 ms

/-- The loop body of `(*DNSQuestion).ModifyDNSQuestion` (`dns_message.go`). -/
def modifyDNSQuestionLoop (original newQuestion : DNSQuestion) :
    List DNSQuestionModification → DNSQuestion × Option DNSError
  | [] => (newQuestion, none)
  | m :: ms =>
    match m newQuestion with
    | .error e => (original, some e)
    | .ok q2 => modifyDNSQuestionLoop original q2 ms

/-- `(*DNSQuestion).ModifyDNSQuestion` (`dns_message.go`). -/
def ModifyDNSQuestion (question : DNSQuestion) (mods : List DNSQuestionModification) :
    DNSQuestion × Option DNSError :=
  modifyDNSQuestionLoop question question mods

/-! Encoding. -/

/-- Big-endian bytes of a `uint16` value, as written by
`binary.Write(buf, binary.BigEndian, _)`. -/
def u16be (n : Nat) : List Nat := [n / 256 % 256, n % 256]

/-- `(*DNSHeader).Encode` (`dns_message.go`): the six fields, big-endian,
12 bytes.  Writing to a `bytes.Buffer` cannot fail, so the Go error
return is always `nil` and the model is total. -/
def DNSHeader.Encode (h : DNSHeader) : List Nat :=
  u16be h.ID ++ u16be h.Flags ++ u16be h.QDCount ++ u16be h.ANCount ++
    u16be h.NSCount ++ u16be h.ARCount

/-- The name-encoding loop of `(*DNSQuestion).Encode` (`dns_message.go`):
each label is written as its length byte, then—only when the length is
non-zero—its content bytes; a zero-length label stops the loop after its
length byte (`break`).  No terminator is appended beyond that. -/
def encodeQName : List DNSLabel → List Nat
  | [] => []
  | l :: rest =>
    if l.Length = 0 then [0]
    else (l.Length :: l.Content) ++ encodeQName rest

/-- `(*DNSQuestion).Encode` (`dns_message.go`): encoded name, then Type
and Class big-endian. -/
def DNSQuestion.Encode (q : DNSQuestion) : List Nat :=
  encodeQName q.Name ++ u16be q.QType ++ u16be q.QClass

/-! Decoding. -/

/-- Read one big-endian `uint16` at `pos`; `none` when fewer than two
bytes remain (Go's `binary.Read` fails on a short reader). -/
def read2 (buf : List Nat) (pos : Nat) : Option Nat :=
  match buf[pos]?, buf[pos + 1]? with
  | some hi, some lo => some (hi * 256 + lo)
  | _, _ => none

/-- `(*DNSHeader).Decode` (`dns_message.go`): reads the six `uint16`
fields from the 12 bytes at `pos`, returning the header and the position
after it; `none` on a short buffer. -/
def DNSHeader.Decode (buf : List Nat) (pos : Nat) : Option (DNSHeader × Nat) :=
  match read2 buf pos, read2 buf (pos + 2), read2 buf (pos + 4), read2 buf (pos + 6),
      read2 buf (pos + 8), read2 buf (pos + 10) with
  | some i, some f, some qd, some an, some ns, some ar =>
    some (⟨i, f, qd, an, ns, ar⟩, pos + 12)
  | _, _, _, _, _, _ => none

/-- Result of `ReadQName`: `ok bytes pos` is the accumulated name bytes
and the reader position on return; `err` a returned error (premature end
of buffer); `diverge` means the call exceeded the given fuel — the Go
function, which has no bound, does not return on inputs that `diverge`
for every fuel. -/
inductive QNameRes where
  | ok (bytes : List Nat) (pos : Nat)
  | err
  | diverge
deriving DecidableEq, Repr

/-- `ReadQName` (`utils.go`): consumes bytes until a NULL byte (included
in the result) or a compression pointer (resolved recursively at its
14-bit absolute offset, after which the reader is seeked back past the
2-byte pointer and the function returns).  Any other byte is appended to
the result and the loop continues with the next byte.  One unit of fuel
is spent per byte dispatched. -/
def ReadQName : Nat → List Nat → Nat → QNameRes
  | 0, _, _ => .diverge
  | fuel + 1, buf, pos =>
    match buf[pos]? with
    | none => .err
    | some b =>
      if b = 0 then .ok [0] (pos + 1)
      else if 0xC0 ≤ b then
        match buf[pos + 1]? with
        | none => .err
        | some next =>
          match ReadQName fuel buf ((b &&& 0x3F) <<< 8 ||| next) with
          | .ok pointed _ => .ok pointed (pos + 2)
          | r => r
      else
        match ReadQName fuel buf (pos + 1) with
        | .ok rest p2 => .ok (b :: rest) p2
        | r => r

/-- `BytesToLabels` (`utils.go`): repeatedly reads a length byte and then
`length` content bytes into a fresh zero-filled slice; `bytes.Reader.Read`
fails only when the reader is already empty, and on a partially filled
read the remainder of the slice keeps its zero padding. -/
def BytesToLabels (data : List Nat) : Option (List DNSLabel) :=
  match data with
  | [] => some []
  | length :: rest =>
    if length = 0 then
      match BytesToLabels rest with
      | none => none
      | some ls => some (⟨0, []⟩ :: ls)
    else if rest.isEmpty then none
    else
      let content := rest.take length ++ List.replicate (length - rest.length) 0
      match BytesToLabels (rest.drop length) with
      | none => none
      | some ls => some (⟨length, content⟩ :: ls)
termination_by data.length
decreasing_by
  · simp
  · simp [List.length_drop]
    omega

/-- Three-valued decode result threading `ReadQName`'s fuel outcome
through the callers. -/
inductive DecodeRes (α : Type) where
  | ok (val : α)
  | err
  | diverge
deriving DecidableEq, Repr

/-- `(*DNSQuestion).Decode` (`dns_message.go`): name via `ReadQName` and
`BytesToLabels`, then Type and Class big-endian. -/
def DNSQuestion.Decode (fuel : Nat) (buf : List Nat) (pos : Nat) :
    DecodeRes (DNSQuestion × Nat) :=
  match ReadQName fuel buf pos with
  | .err => .err
  | .diverge => .diverge
  | .ok qbytes pos2 =>
    match BytesToLabels qbytes with
    | none => .err
    | some name =>
      match read2 buf pos2, read2 buf (pos2 + 2) with
      | some t, some c => .ok (⟨name, t, c⟩, pos2 + 4)
      | _, _ => .err

/-- The question-decoding loop of `(*DNSMessage).Decode`
(`dns_message.go`): exactly `n` questions in sequence. -/
def decodeQuestions (fuel : Nat) (buf : List Nat) :
    Nat → Nat → DecodeRes (List DNSQuestion × Nat)
  | pos, 0 => .ok ([], pos)
  | pos, n + 1 =>
    match DNSQuestion.Decode fuel buf pos with
    | .err => .err
    | .diverge => .diverge
    | .ok (q, pos2) =>
      match decodeQuestions fuel buf pos2 n with
      | .ok (qs, pos3) => .ok (q :: qs, pos3)
      | r => r

/-- `(*DNSMessage).Decode` (`dns_message.go`): header, then `QDCOUNT`
questions, then the response-code policy (`OPCODE = 0 → RCODE 0`,
otherwise `RCODE 4`) applied through `ModifyDNSHeader`; the answer
section is set to the empty list. -/
def DNSMessage.Decode (fuel : Nat) (buf : List Nat) : DecodeRes DNSMessage :=
  match DNSHeader.Decode buf 0 with
  | none => .err
  | some (h0, pos) =>
    match decodeQuestions fuel buf pos h0.QDCount with
    | .err => .err
    | .diverge => .diverge
    | .ok (qs, _) =>
      let rCodeMod := if h0.Flags &&& OpCodeMask = 0 then ModifyRCode 0 else ModifyRCode 4
      match ModifyDNSHeader h0 [rCodeMod] with
      | (h1, none) => .ok ⟨h1, qs, []⟩
      | (_, some _) => .err

/-- `(*DNSMessage).SplitDNSMessage` (`utils.go`): one output message per
question index below `QDCOUNT`, each holding a copy of the original
header, that single question and the original answer list.  The source
calls `newMessage.Header.ModifyDNSHeader(ModifyQDCount(1))` but discards
the returned header (`ModifyDNSHeader` works on a copy), so the stored
header is the unmodified copy of the original; the dead `let` mirrors
that discarded call. -/
def SplitDNSMessage (m : DNSMessage) : List DNSMessage :=
  (List.range m.Header.QDCount).map fun i =>
    let newHeader : DNSHeader := m.Header
    let _ := ModifyDNSHeader newHeader [ModifyQDCount 1]
    { Header := newHeader, Questions := (m.Questions[i]?).toList, Answers := m.Answers }

/-- Result of a Go function that can also crash: `crash` models a
runtime panic (an out-of-bounds slice write), which is not a returned
error. -/
inductive GoResult (α : Type) where
  | ok (val : α)
  | err
  | crash
deriving DecidableEq, Repr

/-- The per-question body of the merge loop in `main.go` (lines 59–86):
each question is rewritten to Type 1 / Class 1, and when the upstream
response at the same index has at least one answer, its first answer is
appended and the answer count incremented.  A failing question
modification would abort the whole loop (it never fails in fact). -/
def mergeLoop : List (DNSQuestion × DNSMessage) → List DNSQuestion → List DNSAnswer → Nat →
    GoResult (List DNSQuestion × List DNSAnswer × Nat)
  | [], qAcc, aAcc, count => .ok (qAcc, aAcc, count)
  | (q, r) :: rest, qAcc, aAcc, count =>
    match ModifyDNSQuestion q [ModifyQType 1, ModifyClass 1] with
    | (_, some _) => .err
    | (q2, none) =>
      match r.Answers with
      | [] => mergeLoop rest (qAcc ++ [q2]) aAcc count
      | a :: _ => mergeLoop rest (qAcc ++ [q2]) (aAcc ++ [a]) (count + 1)

/-- The merge phase of `main` (`main.go`): walk the client questions
paired index-wise with the downstream responses, starting from the
client message's answer list (empty after decode) and a zero answer
count.  Pairing by `zip` encodes the loop's `downstreamResponses[i]`
lookup, which in Go requires the response list to be at least as long as
the question list. -/
def MergeResponses (m : DNSMessage) (responses : List DNSMessage) :
    GoResult (List DNSQuestion × List DNSAnswer × Nat) :=
  mergeLoop (m.Questions.zip responses) [] m.Answers 0

/-- The response-header rewrite of `main` (`main.go`): answer count from
the merge, QR set to 1, AA/TC/RA/Z cleared. -/
def FinalizeHeader (h : DNSHeader) (answerCount : Nat) : DNSHeader × Option DNSError :=
  ModifyDNSHeader h
    [ModifyANCount answerCount, ModifyQR 1, ModifyAA 0, ModifyTC 0, ModifyRA 0, ModifyZ 0]

/-- Go's `strings.Split(s, ".")`: strings are modelled as `List Char`.
Splitting the empty string yields one empty part, as in Go. -/
def splitOnDot : List Char → List (List Char)
  | [] => [[]]
  | c :: cs =>
    if c = '.' then [] :: splitOnDot cs
    else
      match splitOnDot cs with
      | p :: ps => (c :: p) :: ps
      | [] => [[c]]

/-- The accumulating digit run of Go's `strconv.Atoi`. -/
def parseDigitsAcc : List Char → Nat → Option Nat
  | [], acc => some acc
  | c :: cs, acc =>
    if c.isDigit then parseDigitsAcc cs (acc * 10 + (c.toNat - 48)) else none

/-- A non-empty run of decimal digits, or `none`. -/
def parseDigits : List Char → Option Nat
  | [] => none
  | cs => parseDigitsAcc cs 0

/-- Go's `strconv.Atoi` restricted to what `IPToBytes` needs: an
optional sign followed by decimal digits (overflow is irrelevant for
values checked against 255). -/
def atoi (s : List Char) : Option Int :=
  match s with
  | [] => none
  | '+' :: rest => (parseDigits rest).map Int.ofNat
  | '-' :: rest => (parseDigits rest).map fun n => -(n : Int)
  | l => (parseDigits l).map Int.ofNat

/-- The write loop of `IPToBytes` (`utils.go`): each parsed part is
written at its index into the fixed buffer; an index at or past the
buffer length is an out-of-bounds write, i.e. a runtime panic
(`crash`). -/
def ipToBytesLoop : List (List Char) → Nat → List Nat → GoResult (List Nat)
  | [], _, buf => .ok buf
  | p :: ps, i, buf =>
    match atoi p with
    | none => .err
    | some num =>
      if num < 0 ∨ num > 255 then .err
      else if i < buf.length then ipToBytesLoop ps (i + 1) (buf.set i (num.toNat % 256))
      else .crash

/-- `IPToBytes` (`utils.go`): split the address on `.`, require exactly
`dataLength` parts, then write each octet into a buffer fixed at 4 bytes
(`make([]byte, 4)`) regardless of `dataLength`. -/
def IPToBytes (IPAddress : List Char) (dataLength : Nat) : GoResult (List Nat) :=
  let parts := splitOnDot IPAddress
  if parts.length ≠ dataLength then .err
  else ipToBytesLoop parts 0 (List.replicate 4 0)

/-- OPCODE sub-field of a header's flags. -/
def OpCodeOf (h : DNSHeader) : Nat := (h.Flags &&& OpCodeMask) >>> OpCodeShift

/-- RCODE sub-field of a header's flags. -/
def RCodeOf (h : DNSHeader) : Nat := (h.Flags &&& RCodeMask) >>> RCodeShift

/-- Prepend a byte to a successful `ReadQName` result, as the
accumulating loop of the source does. -/
def consQName (b : Nat) : QNameRes → QNameRes
  | .ok bs p => .ok (b :: bs) p
  | r => r

/-- The wire bytes of a label list before the terminator: each label as
its length byte followed by its content bytes. -/
def nameFlat : List DNSLabel → List Nat
  | [] => []
  | l :: rest => (l.Length :: l.Content) ++ nameFlat rest

/-- The name-decoding pipeline of `(*DNSQuestion).Decode`: `ReadQName`
from the start of the buffer, then `BytesToLabels` on the recovered
bytes; `none` on error or fuel exhaustion. -/
def qnameDecode (fuel : Nat) (buf : List Nat) : Option (List DNSLabel) :=
  match ReadQName fuel buf 0 with
  | .ok bs _ => BytesToLabels bs
  | _ => none

/-! Claim theorems. -/

/-- C1: the spec requires `SplitDNSMessage` to force QDCOUNT to 1 in
every output header.  The code computes the modified header via
`ModifyDNSHeader(ModifyQDCount(1))` but discards the result, so each
output carries a verbatim copy of the original header: on a 2-question
message every split header still has QDCOUNT = 2 (question selection,
order, answers and the other header fields behave as claimed). -/
theorem splitDNSMessage_qdcount_unchanged_C1 :
    SplitDNSMessage ⟨⟨7, 0, 2, 0, 0, 0⟩,
        [⟨[⟨1, [97]⟩, ⟨0, []⟩], 1, 1⟩, ⟨[⟨1, [98]⟩, ⟨0, []⟩], 1, 1⟩], []⟩ =
      [⟨⟨7, 0, 2, 0, 0, 0⟩, [⟨[⟨1, [97]⟩, ⟨0, []⟩], 1, 1⟩], []⟩,
       ⟨⟨7, 0, 2, 0, 0, 0⟩, [⟨[⟨1, [98]⟩, ⟨0, []⟩], 1, 1⟩], []⟩] ∧
    ∀ out ∈ SplitDNSMessage ⟨⟨7, 0, 2, 0, 0, 0⟩,
        [⟨[⟨1, [97]⟩, ⟨0, []⟩], 1, 1⟩, ⟨[⟨1, [98]⟩, ⟨0, []⟩], 1, 1⟩], []⟩,
      out.Header.QDCount = 2 := by
  decide

/-- C2 counterexample: on the buffer `[1, 0, 0]` the claim predicts that
the length byte 1 is followed by one content byte read unconditionally,
giving result `[1, 0, 0]` and final position 3; the code instead
dispatches the content byte `0` as a name terminator and returns `[1, 0]`
at position 2, for every fuel. -/
theorem readQName_content_bytes_C2_cex :
    ReadQName 3 [1, 0, 0] 0 = .ok [1, 0] 2 ∧
      ∀ fuel, ReadQName fuel [1, 0, 0] 0 ≠ .ok [1, 0, 0] 3 := by
  refine ⟨by decide, ?_⟩
  intro fuel
  match fuel with
  | 0 => simp [ReadQName]
  | 1 => decide
  | n + 2 => simp [ReadQName]

/-- C2 amended: a byte that is neither `0x00` nor in `[0xC0, 0xFF]` is
appended to the result and decoding continues at the immediately
following byte — content bytes are not skipped in a block; they go
through the same dispatch, so a content byte equal to `0x00` terminates
the name and a content byte `≥ 0xC0` is treated as a pointer. -/
theorem readQName_byte_step_C2 (fuel : Nat) (buf : List Nat) (pos b : Nat)
    (hb : buf[pos]? = some b) (h0 : b ≠ 0) (hc : b < 0xC0) :
    ReadQName (fuel + 1) buf pos = consQName b (ReadQName fuel buf (pos + 1)) := by
  simp only [ReadQName, hb]
  rw [if_neg h0, if_neg (by omega)]
  rcases h : ReadQName fuel buf (pos + 1) with _ | _ | _ <;> simp [consQName]

/-- C2 amended, witness at a concrete input. -/
theorem readQName_byte_step_C2_witness :
    ReadQName 2 [5, 7] 0 = consQName 5 (ReadQName 1 [5, 7] 1) :=
  readQName_byte_step_C2 1 [5, 7] 0 5 (by decide) (by decide) (by decide)

/-- C9: `ReadQName` bounds neither recursion depth nor visited offsets:
an empty buffer is a decode error (`err`), while the 2-byte
self-pointing compression pointer `[0xC0, 0x00]` (offset 0, the
pointer's own first byte) makes the recursion exceed every fuel bound —
the Go function does not terminate on it. -/
theorem readQName_unbounded_C9 :
    (∀ fuel, ReadQName (fuel + 1) [] 0 = .err) ∧
      (∀ fuel, ReadQName fuel [0xC0, 0] 0 = .diverge) := by
  constructor
  · intro fuel
    simp [ReadQName]
  · intro fuel
    induction fuel with
    | zero => rfl
    | succ n ih => simp [ReadQName, (by decide : (192 &&& 63) <<< 8 = (0 : Nat)), ih]

/-! Bit-manipulation helpers for the flag sub-fields (`65520` is the
16-bit complement of `RCodeMask`, `30720` is `OpCodeMask`, `15` is
`RCodeMask`). -/

theorem land65520_lor_low (f r : Nat) (hr : r < 16) : ((f &&& 65520) ||| r) &&& 15 = r := by
  apply Nat.eq_of_testBit_eq
  intro i
  rcases Nat.lt_or_ge i 4 with h4 | h4
  · have h1 : Nat.testBit 65520 i = false := by interval_cases i <;> decide
    have h2 : Nat.testBit 15 i = true := by interval_cases i <;> decide
    simp [Nat.testBit_land, Nat.testBit_lor, h1, h2]
  · have hle : (16 : Nat) ≤ 2 ^ i := by
      calc (16 : Nat) = 2 ^ 4 := by norm_num
      _ ≤ 2 ^ i := Nat.pow_le_pow_right (by norm_num) h4
    have h2 : Nat.testBit 15 i = false := Nat.testBit_lt_two_pow (by omega)
    have h3 : Nat.testBit r i = false := Nat.testBit_lt_two_pow (by omega)
    simp [Nat.testBit_land, Nat.testBit_lor, h2, h3]

theorem land65520_lor_op (f r : Nat) (hr : r < 16) :
    ((f &&& 65520) ||| r) &&& 30720 = f &&& 30720 := by
  apply Nat.eq_of_testBit_eq
  intro i
  rcases Nat.lt_or_ge i 4 with h4 | h4
  · have h1 : Nat.testBit 30720 i = false := by interval_cases i <;> decide
    simp [Nat.testBit_land, Nat.testBit_lor, h1]
  · rcases Nat.lt_or_ge i 15 with h15 | h15
    · have h1 : Nat.testBit 65520 i = true := by interval_cases i <;> decide
      have hle : (16 : Nat) ≤ 2 ^ i := by
        calc (16 : Nat) = 2 ^ 4 := by norm_num
        _ ≤ 2 ^ i := Nat.pow_le_pow_right (by norm_num) h4
      have h3 : Nat.testBit r i = false := Nat.testBit_lt_two_pow (by omega)
      simp [Nat.testBit_land, Nat.testBit_lor, h1, h3]
    · have hle : (32768 : Nat) ≤ 2 ^ i := by
        calc (32768 : Nat) = 2 ^ 15 := by norm_num
        _ ≤ 2 ^ i := Nat.pow_le_pow_right (by norm_num) h15
      have h1 : Nat.testBit 30720 i = false := Nat.testBit_lt_two_pow (by omega)
      simp [Nat.testBit_land, Nat.testBit_lor, h1]

theorem land30720_shr_zero (f : Nat) : (f &&& 30720) >>> 11 = 0 ↔ f &&& 30720 = 0 := by
  constructor
  · intro h
    rw [Nat.shiftRight_eq_div_pow] at h
    have hlt : f &&& 30720 < 2 ^ 11 := by
      norm_num at h ⊢
      omega
    apply Nat.eq_of_testBit_eq
    intro i
    rcases Nat.lt_or_ge i 11 with h11 | h11
    · have h1 : Nat.testBit 30720 i = false := by interval_cases i <;> decide
      simp [Nat.testBit_land, h1, Nat.zero_testBit]
    · have hle : (2 : Nat) ^ 11 ≤ 2 ^ i := Nat.pow_le_pow_right (by norm_num) h11
      have h1 : Nat.testBit (f &&& 30720) i = false := Nat.testBit_lt_two_pow (by omega)
      simp [h1, Nat.zero_testBit]
  · intro h
    rw [h]
    rfl

/-- C4: every buffer accepted by `DNSMessage.Decode` yields a message
whose header satisfies the response-code policy — RCODE 0 when the
OPCODE sub-field is 0 and RCODE 4 otherwise — and whose answer list is
empty; decode never populates answers. -/
theorem decode_rcode_policy_C4 (fuel : Nat) (buf : List Nat) (m : DNSMessage)
    (hdec : DNSMessage.Decode fuel buf = .ok m) :
    (OpCodeOf m.Header = 0 → RCodeOf m.Header = 0) ∧
      (OpCodeOf m.Header ≠ 0 → RCodeOf m.Header = 4) ∧ m.Answers = [] := by
  unfold DNSMessage.Decode at hdec
  split at hdec
  · simp at hdec
  rename_i h0 pos heq
  split at hdec
  · simp at hdec
  · simp at hdec
  rename_i qs pos3 heq2
  by_cases hop : h0.Flags &&& OpCodeMask = 0
  · rw [if_pos hop] at hdec
    dsimp only at hdec
    rw [show ModifyDNSHeader h0 [ModifyRCode 0] =
        ({ h0 with Flags := andNot16 h0.Flags RCodeMask ||| (0 <<< RCodeShift) }, none)
      from rfl] at hdec
    dsimp only at hdec
    simp only [DecodeRes.ok.injEq] at hdec
    subst hdec
    rw [show OpCodeMask = 30720 from by decide] at hop
    simp only [OpCodeOf, RCodeOf, andNot16,
      show (65535 ^^^ RCodeMask) = 65520 from by decide,
      show ((65535 : Nat) ^^^ 15) = 65520 from by decide,
      show RCodeShift = 0 from rfl, Nat.shiftLeft_zero, Nat.shiftRight_zero,
      show OpCodeMask = 30720 from by decide, show OpCodeShift = 11 from rfl,
      show RCodeMask = 15 from by decide]
    rw [land65520_lor_op h0.Flags 0 (by norm_num), land65520_lor_low h0.Flags 0 (by norm_num),
      hop]
    simp
  · rw [if_neg hop] at hdec
    dsimp only at hdec
    rw [show ModifyDNSHeader h0 [ModifyRCode 4] =
        ({ h0 with Flags := andNot16 h0.Flags RCodeMask ||| (4 <<< RCodeShift) }, none)
      from rfl] at hdec
    dsimp only at hdec
    simp only [DecodeRes.ok.injEq] at hdec
    subst hdec
    rw [show OpCodeMask = 30720 from by decide] at hop
    simp only [OpCodeOf, RCodeOf, andNot16,
      show (65535 ^^^ RCodeMask) = 65520 from by decide,
      show ((65535 : Nat) ^^^ 15) = 65520 from by decide,
      show RCodeShift = 0 from rfl, Nat.shiftLeft_zero, Nat.shiftRight_zero,
      show OpCodeMask = 30720 from by decide, show OpCodeShift = 11 from rfl,
      show RCodeMask = 15 from by decide]
    rw [land65520_lor_op h0.Flags 4 (by norm_num), land65520_lor_low h0.Flags 4 (by norm_num)]
    exact ⟨fun h => absurd ((land30720_shr_zero h0.Flags).mp h) hop, fun _ => rfl, trivial⟩

/-- C4 witness: a 12-byte query with ID 1, flags 0 (OPCODE 0) and no
questions decodes to RCODE 0 and an empty answer list. -/
theorem decode_rcode_policy_C4_witness :
    (OpCodeOf (⟨1, 0, 0, 0, 0, 0⟩ : DNSHeader) = 0 →
        RCodeOf (⟨1, 0, 0, 0, 0, 0⟩ : DNSHeader) = 0) ∧
      (OpCodeOf (⟨1, 0, 0, 0, 0, 0⟩ : DNSHeader) ≠ 0 →
        RCodeOf (⟨1, 0, 0, 0, 0, 0⟩ : DNSHeader) = 4) ∧
      (⟨⟨1, 0, 0, 0, 0, 0⟩, [], []⟩ : DNSMessage).Answers = [] :=
  decode_rcode_policy_C4 1 [0, 1, 0, 0, 0, 0, 0, 0, 0, 0, 0, 0]
    ⟨⟨1, 0, 0, 0, 0, 0⟩, [], []⟩ (by decide)

/-- The `ModifyDNSHeader` loop agrees with sequential application when
every mutator succeeds. -/
theorem modifyLoop_ok (ms : List DNSHeaderModification) :
    ∀ original cur h2, applyMods cur ms = .ok h2 →
      modifyDNSHeaderLoop original cur ms = (h2, none) := by
  induction ms with
  | nil =>
    intro original cur h2 h
    simp only [applyMods, Except.ok.injEq] at h
    subst h
    rfl
  | cons m ms ih =>
    intro original cur h2 h
    simp only [applyMods] at h
    rcases hm : m cur with e | h1 <;> rw [hm] at h
    · simp at h
    · simp only [modifyDNSHeaderLoop, hm]
      exact ih original h1 h2 h

/-- The `ModifyDNSHeader` loop returns the untouched original header on
the first failing mutator, ignoring the mutators after it. -/
theorem modifyLoop_err (ms1 : List DNSHeaderModification) :
    ∀ original cur h1 (m : DNSHeaderModification) (ms2 : List DNSHeaderModification) e,
      applyMods cur ms1 = .ok h1 → m h1 = .error e →
      modifyDNSHeaderLoop original cur (ms1 ++ m :: ms2) = (original, some e) := by
  induction ms1 with
  | nil =>
    intro original cur h1 m ms2 e h hm
    simp only [applyMods, Except.ok.injEq] at h
    subst h
    simp only [List.nil_append, modifyDNSHeaderLoop, hm]
  | cons m1 ms1 ih =>
    intro original cur h1 m ms2 e h hm
    simp only [applyMods] at h
    rcases hm1 : m1 cur with e1 | h' <;> rw [hm1] at h
    · simp at h
    · simp only [List.cons_append, modifyDNSHeaderLoop, hm1]
      exact ih original h' h1 m ms2 e h hm

/-- C5: `ModifyDNSHeader` applies the mutators in order to a private
copy; when the mutators `ms1` succeed (producing `h1`) and the next
mutator `m` fails with `e`, the trailing mutators `ms2` are never
applied and the call returns the original header `h` unchanged in every
field, together with the error — no partial application is observable;
when every mutator of `ms` succeeds (producing `h2`) the call returns
`h2` with no error, and `h` itself (a value) is untouched. -/
theorem modifyDNSHeader_atomic_C5 (h h1 h2 : DNSHeader) (ms ms1 ms2 : List DNSHeaderModification)
    (m : DNSHeaderModification) (e : DNSError) :
    (applyMods h ms1 = .ok h1 → m h1 = .error e →
      ModifyDNSHeader h (ms1 ++ m :: ms2) = (h, some e)) ∧
    (applyMods h ms = .ok h2 → ModifyDNSHeader h ms = (h2, none)) :=
  ⟨fun ha hm => modifyLoop_err ms1 h h h1 m ms2 e ha hm,
   fun ha => modifyLoop_ok ms h h h2 ha⟩

/-- C5 witness: after `ModifyQDCount 5` succeeds, the failing
`ModifyQR 2` aborts the run — `ModifyANCount 7` is not applied and the
zero header comes back unchanged with the QR error; a succeeding list
returns only the updated copy. -/
theorem modifyDNSHeader_atomic_C5_witness :
    ModifyDNSHeader ⟨0, 0, 0, 0, 0, 0⟩ [ModifyQDCount 5, ModifyQR 2, ModifyANCount 7] =
        (⟨0, 0, 0, 0, 0, 0⟩, some (.invalidQR 2)) ∧
      ModifyDNSHeader ⟨0, 0, 0, 0, 0, 0⟩ [ModifyQDCount 3] = (⟨0, 0, 3, 0, 0, 0⟩, none) :=
  ⟨(modifyDNSHeader_atomic_C5 ⟨0, 0, 0, 0, 0, 0⟩ ⟨0, 0, 5, 0, 0, 0⟩ ⟨0, 0, 3, 0, 0, 0⟩
      [ModifyQDCount 3] [ModifyQDCount 5] [ModifyANCount 7] (ModifyQR 2) (.invalidQR 2)).1
      rfl rfl,
   (modifyDNSHeader_atomic_C5 ⟨0, 0, 0, 0, 0, 0⟩ ⟨0, 0, 5, 0, 0, 0⟩ ⟨0, 0, 3, 0, 0, 0⟩
      [ModifyQDCount 3] [ModifyQDCount 5] [ModifyANCount 7] (ModifyQR 2) (.invalidQR 2)).2
      rfl⟩

/-- Recombining a big-endian byte pair recovers a `uint16` value. -/
theorem u16be_pair (x : Nat) (hx : x < 65536) : x / 256 % 256 * 256 + x % 256 = x := by
  have h1 : x / 256 < 256 := Nat.div_lt_of_lt_mul (by omega)
  rw [Nat.mod_eq_of_lt h1, Nat.mul_comm]
  exact Nat.div_add_mod x 256

/-- C6: for every header with `uint16`-ranged fields, `Encode` (which
cannot fail) produces exactly 12 bytes — ID, Flags, QDCOUNT, ANCOUNT,
NSCOUNT, ARCOUNT big-endian in that order — and `Decode` of those bytes
returns the original header. -/
theorem header_roundtrip_C6 (h : DNSHeader) (hID : h.ID < 65536) (hFlags : h.Flags < 65536)
    (hQD : h.QDCount < 65536) (hAN : h.ANCount < 65536) (hNS : h.NSCount < 65536)
    (hAR : h.ARCount < 65536) :
    (DNSHeader.Encode h).length = 12 ∧
      DNSHeader.Decode (DNSHeader.Encode h) 0 = some (h, 12) := by
  obtain ⟨i, f, qd, an, ns, ar⟩ := h
  simp only at hID hFlags hQD hAN hNS hAR
  constructor
  · simp [DNSHeader.Encode, u16be]
  · show DNSHeader.Decode
        [i / 256 % 256, i % 256, f / 256 % 256, f % 256, qd / 256 % 256, qd % 256,
         an / 256 % 256, an % 256, ns / 256 % 256, ns % 256, ar / 256 % 256, ar % 256] 0 =
      some (⟨i, f, qd, an, ns, ar⟩, 12)
    rw [show DNSHeader.Decode
        [i / 256 % 256, i % 256, f / 256 % 256, f % 256, qd / 256 % 256, qd % 256,
         an / 256 % 256, an % 256, ns / 256 % 256, ns % 256, ar / 256 % 256, ar % 256] 0 =
      some (⟨i / 256 % 256 * 256 + i % 256, f / 256 % 256 * 256 + f % 256,
        qd / 256 % 256 * 256 + qd % 256, an / 256 % 256 * 256 + an % 256,
        ns / 256 % 256 * 256 + ns % 256, ar / 256 % 256 * 256 + ar % 256⟩, 12) from rfl]
    rw [u16be_pair i hID, u16be_pair f hFlags, u16be_pair qd hQD, u16be_pair an hAN,
      u16be_pair ns hNS, u16be_pair ar hAR]

/-- C6 witness at a concrete header. -/
theorem header_roundtrip_C6_witness :
    (DNSHeader.Encode ⟨258, 33060, 2, 3, 4, 65535⟩).length = 12 ∧
      DNSHeader.Decode (DNSHeader.Encode ⟨258, 33060, 2, 3, 4, 65535⟩) 0 =
        some (⟨258, 33060, 2, 3, 4, 65535⟩, 12) :=
  header_roundtrip_C6 ⟨258, 33060, 2, 3, 4, 65535⟩ (by decide) (by decide) (by decide)
    (by decide) (by decide) (by decide)

/-- The merge loop collects, in index order, exactly the first answer of
every response that has one, rewrites each question to Type 1 / Class 1,
and counts the collected answers. -/
theorem mergeLoop_spec (pairs : List (DNSQuestion × DNSMessage)) :
    ∀ qAcc aAcc count,
      mergeLoop pairs qAcc aAcc count =
        .ok (qAcc ++ pairs.map (fun p => { p.1 with QType := 1, QClass := 1 }),
          aAcc ++ pairs.filterMap (fun p => p.2.Answers.head?),
          count + (pairs.filterMap (fun p => p.2.Answers.head?)).length) := by
  induction pairs with
  | nil =>
    intro qAcc aAcc count
    simp [mergeLoop]
  | cons pr rest ih =>
    obtain ⟨q, r⟩ := pr
    intro qAcc aAcc count
    rcases hA : r.Answers with _ | ⟨a, as⟩
    · simp [mergeLoop, hA,
        show ModifyDNSQuestion q [ModifyQType 1, ModifyClass 1] =
          ({ q with QType := 1, QClass := 1 }, none) from rfl, ih]
    · simp [mergeLoop, hA,
        show ModifyDNSQuestion q [ModifyQType 1, ModifyClass 1] =
          ({ q with QType := 1, QClass := 1 }, none) from rfl, ih]
      omega

/-- The response-header rewrite never fails and leaves ANCOUNT at the
collected answer count. -/
theorem finalizeHeader_ancount (h : DNSHeader) (count : Nat) :
    (FinalizeHeader h count).1.ANCount = count := by
  simp [FinalizeHeader, ModifyDNSHeader, modifyDNSHeaderLoop, ModifyANCount, ModifyQR,
    validateQR, ModifyAA, validateAA, ModifyTC, validateTC, ModifyRA, validateRA,
    ModifyZ, validateZ, QRMax, AAMax, TCMax, RAMax, ZMax]

/-- C7: merging N upstream responses (matched to the N questions by
index) appends exactly the first answer of every response that carries
one, responses with zero answers contribute nothing and raise no error,
and the header rewrite sets ANCOUNT to the number of answers actually
collected — which can be less than N. -/
theorem merge_responses_C7 (m : DNSMessage) (rs : List DNSMessage)
    (hlen : rs.length = m.Questions.length) (hans : m.Answers = []) :
    MergeResponses m rs =
        .ok (m.Questions.map fun q => { q with QType := 1, QClass := 1 },
          rs.filterMap (fun r => r.Answers.head?),
          (rs.filterMap fun r => r.Answers.head?).length) ∧
      ∀ h, (FinalizeHeader h (rs.filterMap fun r => r.Answers.head?).length).1.ANCount =
        (rs.filterMap fun r => r.Answers.head?).length := by
  refine ⟨?_, fun h => finalizeHeader_ancount h _⟩
  unfold MergeResponses
  rw [hans, mergeLoop_spec (m.Questions.zip rs) [] [] 0]
  have hfst : (m.Questions.zip rs).map (fun p => { p.1 with QType := 1, QClass := 1 }) =
      m.Questions.map fun q => { q with QType := 1, QClass := 1 } := by
    have : (m.Questions.zip rs).map (fun p => { p.1 with QType := 1, QClass := 1 }) =
        ((m.Questions.zip rs).map Prod.fst).map fun q => { q with QType := 1, QClass := 1 } := by
      rw [List.map_map]
      rfl
    rw [this, List.map_fst_zip m.Questions rs (by omega)]
  have hsnd : (m.Questions.zip rs).filterMap (fun p => p.2.Answers.head?) =
      rs.filterMap fun r => r.Answers.head? := by
    have : (m.Questions.zip rs).filterMap (fun p => p.2.Answers.head?) =
        ((m.Questions.zip rs).map Prod.snd).filterMap fun r => r.Answers.head? := by
      rw [List.filterMap_map]
      rfl
    rw [this, List.map_snd_zip m.Questions rs (by omega)]
  rw [hfst, hsnd]
  simp

/-- C7 witness: two questions, one upstream response with a single
A-record answer and one with none — the merge collects one answer and
ANCOUNT becomes 1 (less than N = 2). -/
theorem merge_responses_C7_witness :
    MergeResponses ⟨⟨3, 0, 2, 0, 0, 0⟩, [⟨[], 5, 5⟩, ⟨[], 6, 6⟩], []⟩
        [⟨⟨3, 0, 1, 1, 0, 0⟩, [], [⟨[⟨[⟨0, []⟩], 1, 1, 60, 4, [8, 8, 8, 8]⟩]⟩]⟩,
         ⟨⟨3, 0, 1, 0, 0, 0⟩, [], []⟩] =
      .ok ([⟨[], 1, 1⟩, ⟨[], 1, 1⟩], [⟨[⟨[⟨0, []⟩], 1, 1, 60, 4, [8, 8, 8, 8]⟩]⟩], 1) ∧
    (FinalizeHeader ⟨3, 0, 2, 0, 0, 0⟩ 1).1.ANCount = 1 := by
  obtain ⟨h1, h2⟩ := merge_responses_C7 ⟨⟨3, 0, 2, 0, 0, 0⟩, [⟨[], 5, 5⟩, ⟨[], 6, 6⟩], []⟩
    [⟨⟨3, 0, 1, 1, 0, 0⟩, [], [⟨[⟨[⟨0, []⟩], 1, 1, 60, 4, [8, 8, 8, 8]⟩]⟩]⟩,
     ⟨⟨3, 0, 1, 0, 0, 0⟩, [], []⟩] (by decide) rfl
  refine ⟨?_, ?_⟩
  · rw [h1]
    decide
  · have h3 := h2 ⟨3, 0, 2, 0, 0, 0⟩
    rwa [show (([⟨⟨3, 0, 1, 1, 0, 0⟩, [], [⟨[⟨[⟨0, []⟩], 1, 1, 60, 4, [8, 8, 8, 8]⟩]⟩]⟩,
        ⟨⟨3, 0, 1, 0, 0, 0⟩, [], []⟩] : List DNSMessage).filterMap
          fun r => r.Answers.head?).length = 1 from by decide] at h3

/-- C8 counterexample: the spec claims every encoded name ends in a
single `0x00`, whether or not the label list ends with a zero-length
label; for the name `[⟨2, "hi"⟩]`, which has no zero-length label, the
encoder of `dns_message.go` emits `[2, 104, 105]` with no terminator —
the last byte is 105, not 0. -/
theorem encodeQName_terminator_C8_cex :
    encodeQName [⟨2, [104, 105]⟩] = [2, 104, 105] ∧
      ¬(encodeQName [⟨2, [104, 105]⟩]).getLast? = some 0 := by
  decide

/-- C8 amended: the encoded name ends in a zero byte exactly because the
encoder stops at the first zero-length label after emitting its length
byte 0 — so whenever the label list contains a zero-length label the
encoded name ends in `0x00`; when it contains none, no terminator is
appended at all. -/
theorem encodeQName_terminator_C8 (name : List DNSLabel)
    (hz : ∃ l ∈ name, l.Length = 0) : (encodeQName name).getLast? = some 0 := by
  induction name with
  | nil => simp at hz
  | cons l rest ih =>
    by_cases h0 : l.Length = 0
    · simp [encodeQName, h0]
    · obtain ⟨w, hw, hwz⟩ := hz
      rcases List.mem_cons.mp hw with he | hm
      · subst he
        exact absurd hwz h0
      · have htail := ih ⟨w, hm, hwz⟩
        have hne : encodeQName rest ≠ [] := by
          intro he
          rw [he] at htail
          simp at htail
        rw [show encodeQName (l :: rest) = (l.Length :: l.Content) ++ encodeQName rest by
            simp [encodeQName, h0],
          List.getLast?_append_of_ne_nil _ hne]
        exact htail

/-- C8 amended, witness: a name carrying its terminal null label encodes
to bytes ending in `0x00`. -/
theorem encodeQName_terminator_C8_witness :
    (encodeQName [⟨1, [97]⟩, ⟨0, []⟩]).getLast? = some 0 :=
  encodeQName_terminator_C8 [⟨1, [97]⟩, ⟨0, []⟩] ⟨⟨0, []⟩, by decide, rfl⟩

/-- `ReadQName` walks a run of bytes in `[0x01, 0xBF]` up to a zero
byte, returning the run together with the terminator and the position
just past it. -/
theorem readQName_scan (ws : List Nat) :
    ∀ (post buf : List Nat) (pos fuel : Nat),
      buf.drop pos = ws ++ 0 :: post →
      (∀ b ∈ ws, 1 ≤ b ∧ b ≤ 0xBF) →
      ws.length < fuel →
      ReadQName fuel buf pos = .ok (ws ++ [0]) (pos + (ws.length + 1)) := by
  induction ws with
  | nil =>
    intro post buf pos fuel hdrop hmem hfuel
    cases fuel with
    | zero => omega
    | succ f =>
      have hb : buf[pos]? = some 0 := by
        have := congrArg (fun l => l[0]?) hdrop
        simpa [List.getElem?_drop] using this
      simp [ReadQName, hb]
  | cons w ws ih =>
    intro post buf pos fuel hdrop hmem hfuel
    cases fuel with
    | zero => omega
    | succ f =>
      have hb : buf[pos]? = some w := by
        have := congrArg (fun l => l[0]?) hdrop
        simpa [List.getElem?_drop] using this
      have hw := hmem w (by simp)
      have hdrop2 : buf.drop (pos + 1) = ws ++ 0 :: post := by
        have := congrArg (List.drop 1) hdrop
        simpa [List.drop_drop, Nat.add_comm] using this
      have hrec := ih post buf (pos + 1) f hdrop2 (fun b hb2 => hmem b (by simp [hb2]))
        (by simp at hfuel; omega)
      simp only [ReadQName, hb]
      rw [if_neg (by omega), if_neg (by omega), hrec]
      simp
      omega

/-- Every byte emitted for a well-formed label run lies in
`[0x01, 0xBF]`. -/
theorem nameFlat_mem (core : List DNSLabel)
    (hwf : ∀ l ∈ core, 1 ≤ l.Length ∧ l.Length ≤ 0xBF ∧ l.Content.length = l.Length ∧
      ∀ b ∈ l.Content, 1 ≤ b ∧ b ≤ 0xBF) :
    ∀ b ∈ nameFlat core, 1 ≤ b ∧ b ≤ 0xBF := by
  induction core with
  | nil => simp [nameFlat]
  | cons l rest ih =>
    intro b hb
    simp only [nameFlat, List.cons_append, List.mem_cons, List.mem_append] at hb
    obtain ⟨h1, h2, _h3, h4⟩ := hwf l (by simp)
    rcases hb with hb | hb | hb
    · subst hb
      exact ⟨h1, h2⟩
    · exact h4 b hb
    · exact ih (fun x hx => hwf x (by simp [hx])) b hb

/-- On a label list with non-zero lengths and a terminal null label, the
encoder emits the label run followed by the single terminator byte. -/
theorem encodeQName_eq_flat (core : List DNSLabel) (hcore : ∀ l ∈ core, l.Length ≠ 0) :
    encodeQName (core ++ [⟨0, []⟩]) = nameFlat core ++ [0] := by
  induction core with
  | nil => simp [encodeQName, nameFlat]
  | cons l rest ih =>
    have hl : l.Length ≠ 0 := hcore l (by simp)
    simp [encodeQName, hl, nameFlat, ih (fun x hx => hcore x (by simp [hx]))]

/-- `BytesToLabels` inverts the label run when each length byte matches
its content length. -/
theorem bytesToLabels_flat (core : List DNSLabel)
    (hwf : ∀ l ∈ core, 1 ≤ l.Length ∧ l.Content.length = l.Length) :
    BytesToLabels (nameFlat core ++ [0]) = some (core ++ [⟨0, []⟩]) := by
  induction core with
  | nil => simp [nameFlat, BytesToLabels]
  | cons l rest ih =>
    obtain ⟨len, content⟩ := l
    obtain ⟨h1, h3⟩ := hwf ⟨len, content⟩ (by simp)
    simp only at h1 h3
    have ihr := ih fun x hx => hwf x (by simp [hx])
    rw [show nameFlat (⟨len, content⟩ :: rest) ++ [0] =
        len :: (content ++ (nameFlat rest ++ [0])) by simp [nameFlat]]
    rw [BytesToLabels]
    rw [if_neg (by omega), if_neg (by simp)]
    have htake : (content ++ (nameFlat rest ++ [0])).take len = content := by
      rw [← h3]
      exact List.take_left content (nameFlat rest ++ [0])
    have hdrop : (content ++ (nameFlat rest ++ [0])).drop len = nameFlat rest ++ [0] := by
      rw [← h3]
      exact List.drop_left content (nameFlat rest ++ [0])
    have hpad : len - (content ++ (nameFlat rest ++ [0])).length = 0 := by
      simp
      omega
    rw [htake, hdrop, hpad, ihr]
    simp

/-- C3 counterexample: the name `[⟨1, [0x00]⟩, ⟨0, []⟩]` is made of
labels of at most 255 bytes, yet encode-then-decode cannot reproduce it
for any fuel: the content byte `0x00` is dispatched as a name terminator
by `ReadQName`, so the decoded label sequence is `[⟨1, [0]⟩]` (and a
name without the terminal null label, such as `[⟨1, [97]⟩]`, is not even
terminator-encoded and hits end-of-buffer). -/
theorem qname_roundtrip_C3_cex :
    encodeQName [⟨1, [0]⟩, ⟨0, []⟩] = [1, 0, 0] ∧
      ∀ fuel, qnameDecode fuel (encodeQName [⟨1, [0]⟩, ⟨0, []⟩]) ≠ some [⟨1, [0]⟩, ⟨0, []⟩] := by
  refine ⟨by decide, ?_⟩
  intro fuel
  rw [show encodeQName [⟨1, [0]⟩, ⟨0, []⟩] = [1, 0, 0] from by decide]
  match fuel with
  | 0 => simp [qnameDecode, ReadQName]
  | 1 => simp [qnameDecode, ReadQName]
  | n + 2 =>
    simp [qnameDecode, ReadQName, BytesToLabels]

/-- C3 amended: for every name of the form `core ++ [null]` whose core
labels have length in `[1, 0xBF]` equal to their content length and
content bytes in `[1, 0xBF]`, encoding and then decoding with
`ReadQName` followed by `BytesToLabels` (with fuel at least the encoded
length) reproduces the original label sequence exactly. -/
theorem qname_roundtrip_C3 (core : List DNSLabel) (fuel : Nat)
    (hwf : ∀ l ∈ core, 1 ≤ l.Length ∧ l.Length ≤ 0xBF ∧ l.Content.length = l.Length ∧
      ∀ b ∈ l.Content, 1 ≤ b ∧ b ≤ 0xBF)
    (hfuel : (encodeQName (core ++ [⟨0, []⟩])).length ≤ fuel) :
    qnameDecode fuel (encodeQName (core ++ [⟨0, []⟩])) = some (core ++ [⟨0, []⟩]) := by
  have hcore0 : ∀ l ∈ core, l.Length ≠ 0 := fun l hl => by
    have := (hwf l hl).1
    omega
  rw [encodeQName_eq_flat core hcore0] at hfuel ⊢
  have hlen : (nameFlat core).length < fuel := by
    simp at hfuel
    omega
  have hscan := readQName_scan (nameFlat core) [] (nameFlat core ++ [0]) 0 fuel
    (by simp) (nameFlat_mem core hwf) hlen
  unfold qnameDecode
  rw [hscan]
  exact bytesToLabels_flat core fun l hl => ⟨(hwf l hl).1, (hwf l hl).2.2.1⟩

/-- C3 amended, witness: the name `"a"` with its terminal null label
round-trips exactly. -/
theorem qname_roundtrip_C3_witness :
    qnameDecode 4 (encodeQName ([⟨1, [97]⟩] ++ [⟨0, []⟩])) = some ([⟨1, [97]⟩] ++ [⟨0, []⟩]) :=
  qname_roundtrip_C3 [⟨1, [97]⟩] 4 (by decide) (by decide)

/-- The write loop overruns the 4-byte buffer whenever more than
`buf.length - i` valid parts remain. -/
theorem ipToBytesLoop_crash (ps : List (List Char)) :
    ∀ (i : Nat) (buf : List Nat),
      (∀ p ∈ ps, (atoi p).any (fun n => decide (0 ≤ n) && decide (n ≤ 255)) = true) →
      buf.length < i + ps.length → ps ≠ [] →
      ipToBytesLoop ps i buf = .crash := by
  induction ps with
  | nil =>
    intro i buf _ _ hne
    exact absurd rfl hne
  | cons p ps ih =>
    intro i buf hval hlen _
    have hv := hval p (by simp)
    rcases ha : atoi p with _ | n
    · rw [ha] at hv
      simp [Option.any] at hv
    · rw [ha] at hv
      simp [Option.any] at hv
      simp only [ipToBytesLoop, ha]
      rw [if_neg (by omega)]
      by_cases hi : i < buf.length
      · rw [if_pos hi]
        apply ih (i + 1) (buf.set i (n.toNat % 256)) (fun q hq => hval q (by simp [hq]))
        · simp only [List.length_set, List.length_cons] at hlen ⊢
          omega
        · intro he
          subst he
          simp at hlen
          omega
      · rw [if_neg hi]

/-- The write loop stays in bounds when the remaining parts fit in the
buffer. -/
theorem ipToBytesLoop_ok (ps : List (List Char)) :
    ∀ (i : Nat) (buf : List Nat), i + ps.length ≤ buf.length →
      ipToBytesLoop ps i buf ≠ .crash := by
  induction ps with
  | nil =>
    intro i buf _
    simp [ipToBytesLoop]
  | cons p ps ih =>
    intro i buf hlen
    simp only [List.length_cons] at hlen
    rcases ha : atoi p with _ | n
    · simp [ipToBytesLoop, ha]
    · simp only [ipToBytesLoop, ha]
      by_cases hval : n < 0 ∨ n > 255
      · rw [if_pos hval]
        simp
      · rw [if_neg hval]
        have hi : i < buf.length := by omega
        rw [if_pos hi]
        apply ih
        simp only [List.length_set]
        omega

/-- C10: `IPToBytes` writes the parsed octets into a buffer fixed at 4
bytes regardless of `dataLength`.  For every `dataLength > 4` and every
address string splitting on `.` into exactly `dataLength` parts, each
parsing to an integer in `[0, 255]`, the loop reaches the write at index
4 and crashes with an out-of-bounds access (a runtime panic, not a
returned error); for `dataLength ≤ 4` the indexing is always in
bounds. -/
theorem ipToBytes_oob_C10 (s : List Char) (dataLength : Nat) :
    (4 < dataLength → (splitOnDot s).length = dataLength →
      (∀ p ∈ splitOnDot s, (atoi p).any (fun n => decide (0 ≤ n) && decide (n ≤ 255)) = true) →
      IPToBytes s dataLength = .crash) ∧
    (dataLength ≤ 4 → IPToBytes s dataLength ≠ .crash) := by
  constructor
  · intro h4 hsplit hval
    unfold IPToBytes
    dsimp only
    rw [if_neg (by omega)]
    apply ipToBytesLoop_crash (splitOnDot s) 0 (List.replicate 4 0) hval
    · simp [hsplit]
      omega
    · intro he
      rw [he] at hsplit
      simp at hsplit
      omega
  · intro h4
    unfold IPToBytes
    dsimp only
    by_cases hne : (splitOnDot s).length ≠ dataLength
    · rw [if_pos hne]
      simp
    · rw [if_neg hne]
      have heq : (splitOnDot s).length = dataLength := not_not.mp hne
      apply ipToBytesLoop_ok
      simp [heq]
      omega

/-- C10 witness: a 5-part address with `dataLength = 5` panics at the
fifth write; a 4-part address with `dataLength = 4` does not. -/
theorem ipToBytes_oob_C10_witness :
    IPToBytes "1.2.3.4.5".data 5 = .crash ∧ IPToBytes "1.2.3.4".data 4 ≠ .crash :=
  ⟨(ipToBytes_oob_C10 "1.2.3.4.5".data 5).1 (by decide) (by decide) (by decide),
   (ipToBytes_oob_C10 "1.2.3.4".data 4).2 (by decide)⟩
